import Mathlib

/-!
Shallow embedding of the AIBTCC-P2P blockchain node core (JavaScript source:
`src/wallet.js` / `src/transaction.js`, `src/block.js`, `src/blockchain.js`),
together with theorems settling the specification claims about transaction
validation, hashing, signing, mempool admission, mining, block append and
chain replacement.

Modelling conventions:
* SHA-256 is abstracted as a parameter `sha : String → String`; every
  definition that hashes takes it explicitly.  Concrete witnesses instantiate
  it with an executable function.
* secp256k1 key parsing and signature verification are abstracted by the
  `Crypto` structure.
* JavaScript field values that may be `undefined`, `null`, a string or a
  number are embedded as the inductive `JVal`; `JSON.stringify` omission of
  `undefined`-valued keys and JS truthiness are modelled faithfully.
* Decimal amounts are carried as their canonical 8-fractional-digit strings;
  `new Decimal(x).toFixed(8)` is the identity on that canonical form.
* Async database operations are modelled by explicit state passing; a store
  operation that may fail is given a boolean success parameter, and a thrown
  JS exception is an `Except.error` (or, where the source catches and logs,
  the state as left by the statements executed before the throw).
-/

/-- Embedding of a JavaScript field value as it matters for JSON
serialization and truthiness: `undefined`, `null`, a string, or a number. -/
inductive JVal where
  | undef : JVal
  | null : JVal
  | str : String → JVal
  | num : Int → JVal
  deriving DecidableEq, Repr

/-- JavaScript truthiness of a `JVal`: `undefined`, `null`, `""` and `0` are
falsy, everything else is truthy. -/
def JVal.jsTruthy : JVal → Bool
  | .undef => false
  | .null => false
  | .str s => s ≠ ""
  | .num n => n ≠ 0

/-- The string content of a `JVal`, for positions where the source uses the
value as a string (signatures and public keys are strings whenever truthy). -/
def JVal.asString : JVal → String
  | .str s => s
  | _ => ""

/-- JS `(x || '')`: `undefined`, `null` and `""` collapse to `""`. -/
def JVal.orEmpty : JVal → String
  | .str s => s
  | _ => ""

/-- JSON rendering of one `JVal`; `none` for `undefined` (whose key
`JSON.stringify` omits from the object). -/
def JVal.render : JVal → Option String
  | .undef => none
  | .null => some "null"
  | .str s => some ("\"" ++ s ++ "\"")
  | .num n => some (toString n)

/-- `JSON.stringify` of an object literal with fields in source order:
keys with `undefined` values are omitted, the rest are rendered in order. -/
def jsonObj (fields : List (String × JVal)) : String :=
  "\x7b" ++
    String.intercalate ","
      (fields.filterMap (fun kv => kv.2.render.map (fun r => "\"" ++ kv.1 ++ "\":" ++ r))) ++
    "\x7d"

/-- Abstraction of the secp256k1 operations used by `Transaction.isValid`:
`validKey pk` is true when `ec.keyFromPublic(pk, "hex")` succeeds, and
`verify pk digest sig` is the boolean result of `key.verify(digest, sig)`. -/
structure Crypto where
  validKey : String → Bool
  verify : String → String → String → Bool

/-- Address derivation from `src/wallet.js` (`createNewWallet`): the first 30
hex characters of the SHA-256 of the public key. -/
def deriveAddress (sha : String → String) (publicKey : String) : String :=
  String.mk ((sha publicKey).data.take 30)

/-- The `Transaction` record of `src/transaction.js`.  `amount` is the
canonical 8-decimal-place string. -/
structure Transaction where
  fromAddress : JVal
  toAddress : JVal
  amount : String
  timestamp : Int
  signature : JVal
  blockHash : JVal
  originTransactionHash : JVal
  publicKey : JVal
  hash : String
  index_in_block : JVal
  tokenId : JVal
  tokenName : JVal
  tokenSymbol : JVal
  tokenTotalSupply : JVal
  deriving DecidableEq, Repr

/-- `Transaction.calculateHash`: SHA-256 of the JSON of the ordered field set
`{fromAddress, toAddress, amount(8dp), tokenId, tokenName, tokenSymbol,
tokenTotalSupply, originTransactionHash, timestamp}`.  Signature, public key,
block linkage and the stored hash are not inputs. -/
def Transaction.calculateHash (sha : String → String) (tx : Transaction) : String :=
  sha (jsonObj
    [("fromAddress", tx.fromAddress),
     ("toAddress", tx.toAddress),
     ("amount", JVal.str tx.amount),
     ("tokenId", tx.tokenId),
     ("tokenName", tx.tokenName),
     ("tokenSymbol", tx.tokenSymbol),
     ("tokenTotalSupply", tx.tokenTotalSupply),
     ("originTransactionHash", tx.originTransactionHash),
     ("timestamp", JVal.num tx.timestamp)])

/-- The `Transaction` constructor.  The source assigns `fromAddress` through
`publicKey`, then computes `this.hash = this.calculateHash()` while
`index_in_block` and the four token fields are still `undefined`, and only
afterwards assigns those five fields from the constructor parameters. -/
def Transaction.make (sha : String → String) (fromAddress toAddress : JVal) (amount : String)
    (timestamp : Int) (signature blockHash originTransactionHash publicKey
     index_in_block tokenId tokenName tokenSymbol tokenTotalSupply : JVal) : Transaction :=
  let pre : Transaction :=
    { fromAddress := fromAddress, toAddress := toAddress, amount := amount,
      timestamp := timestamp, signature := signature, blockHash := blockHash,
      originTransactionHash := originTransactionHash, publicKey := publicKey,
      hash := "", index_in_block := JVal.undef, tokenId := JVal.undef,
      tokenName := JVal.undef, tokenSymbol := JVal.undef, tokenTotalSupply := JVal.undef }
  { pre with hash := Transaction.calculateHash sha pre,
             index_in_block := index_in_block, tokenId := tokenId,
             tokenName := tokenName, tokenSymbol := tokenSymbol,
             tokenTotalSupply := tokenTotalSupply }

/-- A transaction with its four token fields set back to `undefined`
(i.e. absent from the canonical-hash JSON). -/
def Transaction.tokenFieldsAbsent (tx : Transaction) : Transaction :=
  { tx with tokenId := JVal.undef, tokenName := JVal.undef,
            tokenSymbol := JVal.undef, tokenTotalSupply := JVal.undef }

/-- `Transaction.isValid`: returns `true` for reward transactions
(`fromAddress === null`); throws when the signature is missing or empty;
inside a try/catch, throws (as "Transaction signature is invalid!") when the
public key is missing, empty or unparsable; otherwise returns the boolean
result of signature verification over the recomputed hash.  No comparison of
the derived address with `fromAddress` is performed. -/
def Transaction.isValid (sha : String → String) (c : Crypto) (tx : Transaction) :
    Except String Bool :=
  let hashToVerify := tx.calculateHash sha
  if tx.fromAddress = JVal.null then .ok true
  else if ¬ tx.signature.jsTruthy then
    .error "Transaction signature is missing or invalid!"
  else if ¬ tx.publicKey.jsTruthy then
    .error "Transaction signature is invalid!"
  else if c.validKey tx.publicKey.asString then
    .ok (c.verify tx.publicKey.asString hashToVerify tx.signature.asString)
  else
    .error "Transaction signature is invalid!"

/-- `Transaction.signWithAddress`: the wallet lookup and ECDSA signing are
abstracted into the produced DER signature `sigDER` and the key pair's public
key `pubKey`.  The source sets `signature` and `publicKey` and then
recomputes `this.hash = this.calculateHash()`. -/
def Transaction.signWithAddress (sha : String → String) (sigDER pubKey : String)
    (tx : Transaction) : Transaction :=
  let tx1 := { tx with signature := JVal.str sigDER, publicKey := JVal.str pubKey }
  { tx1 with hash := Transaction.calculateHash sha tx1 }

/-- `Transaction.signWithKeyPair`: same mutation shape as
`signWithAddress` with the key pair supplied directly. -/
def Transaction.signWithKeyPair (sha : String → String) (sigDER pubKey : String)
    (tx : Transaction) : Transaction :=
  let tx1 := { tx with signature := JVal.str sigDER, publicKey := JVal.str pubKey }
  { tx1 with hash := Transaction.calculateHash sha tx1 }

/-- `Transaction.verifyTransaction`: throws when the stored hash differs from
the recomputed canonical hash. -/
def Transaction.verifyTransaction (sha : String → String) (tx : Transaction) :
    Except String Unit :=
  if tx.hash = tx.calculateHash sha then .ok ()
  else .error "Transaction hash does not match expected hash!"

/-- One pairing level of the Merkle tree: adjacent leaves combine as
`sha256(a ++ b)`; an odd trailing leaf is promoted unchanged. -/
def merkleLevel (sha : String → String) : List String → List String
  | [] => []
  | [a] => [a]
  | a :: b :: rest => sha (a ++ b) :: merkleLevel sha rest

/-- Fuel-driven reduction of Merkle levels to a single root; the fuel is
instantiated with the leaf count, which bounds the number of levels. -/
def merkleRootAux (sha : String → String) : Nat → List String → String
  | _, [] => String.mk (List.replicate 64 '0')
  | _, [r] => r
  | 0, _ :: _ :: _ => ""
  | Nat.succ fuel, l => merkleRootAux sha fuel (merkleLevel sha l)

/-- Modelled from the spec: `MerkleTree.getRootHash` (the `merkleTree.js`
module is not part of the given source set).  Build: pair the ordered leaf
hashes left to right combining as `sha256(concat(a, b))`, promote an odd
last leaf unchanged, repeat until one root remains; the empty input yields
`"0"*64`. -/
def merkleRootOf (sha : String → String) (leaves : List String) : String :=
  merkleRootAux sha leaves.length leaves

/-- The `Block` record of `src/block.js`. -/
structure Block where
  index : Int
  previousHash : JVal
  timestamp : Int
  transactions : List Transaction
  difficulty : Nat
  merkleRoot : String
  nonce : Nat
  originTransactionHash : JVal
  hash : String
  deriving DecidableEq, Repr

/-- `Block.calculateMerkleRoot`: the default `"0"*64` for an empty
transaction list, otherwise the Merkle root over the transaction hashes. -/
def Block.calculateMerkleRoot (sha : String → String) (transactions : List Transaction) : String :=
  if transactions.isEmpty then String.mk (List.replicate 64 '0')
  else merkleRootOf sha (transactions.map (fun tx => tx.hash))

/-- `Block.calculateLastOriginTransactionHash`: `null` for an empty list;
the last transaction's `originTransactionHash` when that value is truthy;
otherwise the second-to-last transaction's `originTransactionHash`, or
`null` when no second-to-last transaction exists. -/
def calculateLastOriginTransactionHash (transactions : List Transaction) : JVal :=
  match transactions.getLast? with
  | none => JVal.null
  | some lastTransaction =>
    if lastTransaction.originTransactionHash.jsTruthy then
      lastTransaction.originTransactionHash
    else
      match transactions.dropLast.getLast? with
      | some secondToLast => secondToLast.originTransactionHash
      | none => JVal.null

/-- `Block.calculateHash`: SHA-256 of the concatenation
`(previousHash || '') + timestamp + merkleRoot + nonce +
(originTransactionHash || '')`.  The serialized transaction list the source
builds is not part of the hashed data. -/
def Block.calculateHash (sha : String → String) (b : Block) : String :=
  sha (b.previousHash.orEmpty ++ toString b.timestamp ++ b.merkleRoot ++
       toString b.nonce ++ b.originTransactionHash.orEmpty)

/-- The `Block` constructor: store the header fields, compute the Merkle
root, set `nonce = 0`, derive `originTransactionHash`, and compute `hash`. -/
def Block.make (sha : String → String) (index : Int) (previousHash : JVal)
    (timestamp : Int) (transactions : List Transaction) (difficulty : Nat) : Block :=
  let pre : Block :=
    { index := index, previousHash := previousHash, timestamp := timestamp,
      transactions := transactions, difficulty := difficulty,
      merkleRoot := Block.calculateMerkleRoot sha transactions, nonce := 0,
      originTransactionHash := calculateLastOriginTransactionHash transactions,
      hash := "" }
  { pre with hash := Block.calculateHash sha pre }

/-- The proof-of-work test `hash.substring(0, difficulty) ===
Array(difficulty + 1).join("0")`: the first `difficulty` characters of the
hash are all `'0'`. -/
def meetsDifficulty (hash : String) (difficulty : Nat) : Bool :=
  hash.data.take difficulty = List.replicate difficulty '0'

/-- One iteration of the mining loop body: increment the nonce and
recalculate the block hash. -/
def Block.mineStep (sha : String → String) (b : Block) : Block :=
  let b1 := { b with nonce := b.nonce + 1 }
  { b1 with hash := Block.calculateHash sha b1 }

/-- `Block.mineBlock` as a fuel-indexed loop: while the hash does not meet
the difficulty, run the loop body; the fuel bounds the number of
iterations of the unbounded source loop. -/
def Block.mineBlock (sha : String → String) (fuel : Nat) (b : Block) (difficulty : Nat) : Block :=
  match fuel with
  | 0 => b
  | Nat.succ fuel =>
    if meetsDifficulty b.hash difficulty then b
    else Block.mineBlock sha fuel (Block.mineStep sha b) difficulty

/-- Body of `Block.hasValidTransactions` over the transaction list: each
transaction's `verifyTransaction` throw propagates; a non-reward transaction
whose `isValid()` yields `false` makes the whole check `false` (an
`isValid` throw also propagates). -/
def hasValidTransactionsList (sha : String → String) (c : Crypto) :
    List Transaction → Except String Bool
  | [] => .ok true
  | tx :: rest =>
    match tx.verifyTransaction sha with
    | .error e => .error e
    | .ok _ =>
      if tx.fromAddress ≠ JVal.null then
        match tx.isValid sha c with
        | .error e => .error e
        | .ok v =>
          if ¬ v then .ok false
          else hasValidTransactionsList sha c rest
      else hasValidTransactionsList sha c rest

/-- `Block.hasValidTransactions`. -/
def Block.hasValidTransactions (sha : String → String) (c : Crypto) (b : Block) :
    Except String Bool :=
  hasValidTransactionsList sha c b.transactions

/-- In-memory and store state owned by the `Blockchain` singleton, projected
to what the modelled operations read and write: the chain, the mempool
(`pendingTransactions`), the de-duplication hash set (`transactionPool`),
the `pending_transactions` table rows (`dbPending`), the record of peer
broadcasts performed, and the configuration fields consulted. -/
structure ChainState where
  chain : List Block
  pendingTransactions : List Transaction
  transactionPool : List String
  dbPending : List Transaction
  broadcasts : List String
  difficulty : Nat
  miningReward : String
  deriving DecidableEq, Repr

/-- `Transaction.savePending`: upsert keyed on the recomputed
`calculateHash()` (`ON DUPLICATE KEY UPDATE hash = hash` leaves an existing
row unchanged). -/
def savePendingUpsert (sha : String → String) (rows : List Transaction)
    (tx : Transaction) : List Transaction :=
  let h := tx.calculateHash sha
  if rows.any (fun r => r.hash = h) then rows
  else rows ++ [{ tx with hash := h }]

/-- `Blockchain.addPendingTransaction`: throw if `isValid()` throws or
returns false; no-op when the hash is already in the pool; otherwise append
to the mempool and pool, upsert into `pending_transactions`, and broadcast. -/
def addPendingTransaction (sha : String → String) (c : Crypto) (st : ChainState)
    (tx : Transaction) : Except String ChainState :=
  match tx.isValid sha c with
  | .error e => .error e
  | .ok v =>
    if ¬ v then .error "Invalid transaction."
    else if st.transactionPool.contains tx.hash then .ok st
    else .ok { st with
      pendingTransactions := st.pendingTransactions ++ [tx],
      transactionPool := st.transactionPool ++ [tx.hash],
      dbPending := savePendingUpsert sha st.dbPending tx,
      broadcasts := st.broadcasts ++ [tx.hash] }

/-- `Blockchain.clearMinedTransactions`: delete from `pending_transactions`
every row whose hash is among the mined transactions. -/
def clearMined (rows : List Transaction) (mined : List Transaction) : List Transaction :=
  rows.filter (fun r => !mined.any (fun m => m.hash = r.hash))

/-- `Blockchain.addBlock`: the four validation rejections return `false`
with nothing mutated; an exception from `hasValidTransactions` propagates;
after validation the block is pushed onto the in-memory chain and then
saved — `saveOk` is whether `newBlock.save()` succeeds, and on failure the
catch returns `false` with the block still pushed. -/
def addBlock (sha : String → String) (c : Crypto) (saveOk : Bool)
    (st : ChainState) (newBlock : Block) : Except String (Bool × ChainState) :=
  match st.chain.getLast? with
  | none => .error "TypeError: getLatestBlock() is undefined"
  | some previousBlock =>
    if newBlock.previousHash ≠ JVal.str previousBlock.hash then .ok (false, st)
    else
      match newBlock.hasValidTransactions sha c with
      | .error e => .error e
      | .ok valid =>
        if ¬ valid then .ok (false, st)
        else if newBlock.hash ≠ Block.calculateHash sha newBlock then .ok (false, st)
        else if ¬ meetsDifficulty newBlock.hash st.difficulty then .ok (false, st)
        else
          let pushed := { st with chain := st.chain ++ [newBlock] }
          if saveOk then
            .ok (true, { pushed with
              dbPending := clearMined pushed.dbPending newBlock.transactions,
              pendingTransactions := pushed.pendingTransactions.filter
                (fun tx => !newBlock.transactions.any (fun n => n.hash = tx.hash)),
              broadcasts := pushed.broadcasts ++ [newBlock.hash] })
          else .ok (false, pushed)

/-- Environment of one `minePendingTransactions` run: whether the named
mining lock was acquired, whether `newBlock.save()` succeeds, the wall-clock
timestamp `Date.now()`, the mining-loop fuel, and the reward address
argument. -/
structure MineParams where
  lockOk : Bool
  saveOk : Bool
  now : Int
  fuel : Nat
  rewardAddr : JVal
  deriving Repr

/-- Duplicate collapse via the insertion-ordered `Map` keyed on hash:
the first occurrence of each hash is kept. -/
def dedupeByHash (seen : List String) : List Transaction → List Transaction
  | [] => []
  | tx :: rest =>
    if seen.contains tx.hash then dedupeByHash seen rest
    else tx :: dedupeByHash (tx.hash :: seen) rest

/-- The mining filter: pending transactions whose hash does not already
appear in any block of the chain. -/
def mineFiltered (st : ChainState) : List Transaction :=
  st.pendingTransactions.filter (fun tx =>
    !st.chain.any (fun b => b.transactions.any (fun e => e.hash = tx.hash)))

/-- The reward transaction built by the miner: `new Transaction(null,
rewardAddr, miningReward)` with constructor defaults, its hash recomputed
(now that the token fields are `null`), and its signature reset to `null`. -/
def mkRewardTx (sha : String → String) (rewardAddr : JVal) (miningReward : String)
    (now : Int) : Transaction :=
  let tx := Transaction.make sha JVal.null rewardAddr miningReward now
    JVal.null (JVal.str "") JVal.null (JVal.str "")
    JVal.null JVal.null JVal.null JVal.null JVal.null
  { tx with hash := Transaction.calculateHash sha tx, signature := JVal.null }

/-- The transaction list of the block under assembly: the de-duplicated
filtered pendings, plus the reward transaction when a truthy reward address
was supplied. -/
def mineBlockTxs (sha : String → String) (st : ChainState) (p : MineParams) :
    List Transaction :=
  dedupeByHash [] (mineFiltered st) ++
    (if p.rewardAddr.jsTruthy then [mkRewardTx sha p.rewardAddr st.miningReward p.now] else [])

/-- The block the miner constructs and mines: index `chain.length`,
previous hash of the latest block, timestamp `Date.now()`, the assembled
transactions, the configured difficulty. -/
def mineNewBlock (sha : String → String) (st : ChainState) (p : MineParams)
    (previousBlock : Block) : Block :=
  Block.mineBlock sha p.fuel
    (Block.make sha (st.chain.length : Int) (JVal.str previousBlock.hash) p.now
      (mineBlockTxs sha st p) st.difficulty)
    st.difficulty

/-- `Blockchain.minePendingTransactions`.  Without the lock or with an empty
mempool nothing happens.  When every pending transaction is already mined,
the mempool is emptied and the whole `pending_transactions` table is
cleared.  Otherwise a block is assembled and mined; a thrown
origin-transaction-hash consistency error is caught with nothing yet
mutated; after the chain push, a failing `save()` is caught by the same
handler, leaving the pushed block in the chain and all later steps
(pending-table delete, pool removal, broadcast, mempool filter) undone. -/
def minePendingTransactions (sha : String → String) (st : ChainState)
    (p : MineParams) : ChainState :=
  if ¬ p.lockOk then st
  else if st.pendingTransactions.isEmpty then st
  else if mineFiltered st = [] then
    { st with pendingTransactions := [], dbPending := [] }
  else if dedupeByHash [] (mineFiltered st) = [] then
    { st with pendingTransactions := [], dbPending := [] }
  else
    match st.chain.getLast? with
    | none => st
    | some previousBlock =>
      if previousBlock.originTransactionHash ≠
          calculateLastOriginTransactionHash previousBlock.transactions then st
      else
        let mined := mineNewBlock sha st p previousBlock
        let pushed := { st with chain := st.chain ++ [mined] }
        if ¬ p.saveOk then pushed
        else { pushed with
          dbPending := clearMined pushed.dbPending mined.transactions,
          transactionPool := pushed.transactionPool.filter
            (fun h => !mined.transactions.any (fun t => t.hash = h)),
          broadcasts := pushed.broadcasts ++ [mined.hash],
          pendingTransactions := pushed.pendingTransactions.filter
            (fun tx => !mined.transactions.any (fun n => n.hash = tx.hash)) }

/-- `Block.fromJSON`'s normalization of `previous_hash`: the string forms
`'0'`, `''` and `'null'` become `null`; every other value is kept. -/
def normalizePrevHash : JVal → JVal
  | JVal.str "0" => JVal.null
  | JVal.str "" => JVal.null
  | JVal.str "null" => JVal.null
  | v => v

/-- `Block.fromJSON`: the constructor's recomputed Merkle root, origin hash
and hash are all overwritten from the data, so the net effect on the
embedded record is the `previous_hash` normalization. -/
def Block.fromJSON (b : Block) : Block :=
  { b with previousHash := normalizePrevHash b.previousHash }

/-- `Blockchain.calculateCumulativeDifficulty`: the sum of the per-block
`difficulty` values. -/
def cumulativeDifficulty (chainData : List Block) : Nat :=
  chainData.foldl (fun total b => total + b.difficulty) 0

/-- Loop body of `Blockchain.isValidChain` from index 1 upward:
`previous_hash` linkage, recomputed hash of the `fromJSON` reconstruction,
proof-of-work, and `hasValidTransactions` (whose throw propagates). -/
def isValidChainLoop (sha : String → String) (c : Crypto) :
    Block → List Block → Except String Bool
  | _, [] => .ok true
  | previousBlock, currentBlock :: rest =>
    if currentBlock.previousHash ≠ JVal.str previousBlock.hash then .ok false
    else
      let tempBlock := Block.fromJSON currentBlock
      if currentBlock.hash ≠ Block.calculateHash sha tempBlock then .ok false
      else if ¬ meetsDifficulty currentBlock.hash currentBlock.difficulty then .ok false
      else
        match tempBlock.hasValidTransactions sha c with
        | .error e => .error e
        | .ok v =>
          if ¬ v then .ok false
          else isValidChainLoop sha c currentBlock rest

/-- `Blockchain.isValidChain` (static): an empty chain is invalid; the first
block must have index 0 and a `null` or `'0'` previous hash; each later
block is checked by the loop. -/
def isValidChain (sha : String → String) (c : Crypto) (chainData : List Block) :
    Except String Bool :=
  match chainData with
  | [] => .ok false
  | firstBlock :: rest =>
    if firstBlock.index ≠ 0 then .ok false
    else if firstBlock.previousHash ≠ JVal.null ∧
            firstBlock.previousHash ≠ JVal.str "0" then .ok false
    else isValidChainLoop sha c firstBlock rest

/-- Store behavior of one `replaceChain` attempt: whether
`clearLocalBlockchainData` succeeds, and how many of the incoming blocks
`Block.save` accepts before a failure (`saveOkUpTo ≥ length` means all). -/
structure ReplaceParams where
  clearOk : Bool
  saveOkUpTo : Nat
  deriving Repr

/-- `Blockchain.replaceChain`.  The result pairs the state after the call
with the error it propagates, if any (a thrown `isValidChain` error leaves
the state unchanged — nothing is mutated before the check).  The re-entrancy
flag, the length test and the invalidity test are no-ops; the cumulative
difficulty must be strictly greater to replace; the replacement body clears
the store, empties the chain, and pushes each saved incoming block, its own
errors caught and logged (a clear failure leaves the chain untouched, a save
failure leaves the prefix pushed so far); the full-chain broadcast happens
only when every block saved. -/
def replaceChain (sha : String → String) (c : Crypto) (rp : ReplaceParams)
    (st : ChainState) (isReplacing : Bool) (newChainData : List Block) :
    ChainState × Option String :=
  if isReplacing then (st, none)
  else if newChainData.length ≤ st.chain.length then (st, none)
  else
    match isValidChain sha c newChainData with
    | .error e => (st, some e)
    | .ok valid =>
      if ¬ valid then (st, none)
      else if cumulativeDifficulty newChainData > cumulativeDifficulty st.chain then
        if ¬ rp.clearOk then (st, none)
        else
          let incoming := newChainData.map Block.fromJSON
          ({ st with
              chain := incoming.take rp.saveOkUpTo,
              dbPending := [],
              broadcasts := if newChainData.length ≤ rp.saveOkUpTo
                then st.broadcasts ++ ["FULL_CHAIN"] else st.broadcasts }, none)
      else (st, none)

/-- The transaction `Blockchain.createToken` builds: a reward-shaped
transaction via the constructor, then the four token fields assigned,
`signature` reset to `null`, and the hash explicitly recomputed.
`totalSupplyAmount` is the canonical amount string of the numeric
`totalSupply`. -/
def createTokenTx (sha : String → String) (tokenId : JVal) (name symbol : String)
    (totalSupplyAmount : String) (totalSupply : JVal) (creatorAddress : String)
    (timestamp : Int) : Transaction :=
  let tx := Transaction.make sha JVal.null (JVal.str creatorAddress) totalSupplyAmount
    timestamp JVal.null (JVal.str "") JVal.null (JVal.str "")
    JVal.null JVal.null JVal.null JVal.null JVal.null
  let tx := { tx with
    tokenId := tokenId, tokenName := JVal.str name,
    tokenSymbol := JVal.str symbol, tokenTotalSupply := totalSupply,
    signature := JVal.null }
  { tx with hash := Transaction.calculateHash sha tx }

/-- An executable stand-in hash function for concrete evaluations: witnesses
only need some computable `sha`. -/
def idSha : String → String := fun s => s

/-- A `Crypto` instance whose key parse always fails. -/
def strictCrypto : Crypto := { validKey := fun _ => false, verify := fun _ _ _ => false }

/-- A `Crypto` instance that accepts every key and every signature, used to
exhibit behaviors that are independent of the cryptographic outcome. -/
def permissiveCrypto : Crypto := { validKey := fun _ => true, verify := fun _ _ _ => true }

/-- Statements proved below refer to the claims of the specification review;
the development first records small general lemmas shared between them. -/
theorem calculateHash_ignores_sig_pk_hash (sha : String → String) (tx : Transaction)
    (sig bh pk : JVal) (h : String) (idx : JVal) :
    Transaction.calculateHash sha
      { tx with
        signature := sig, blockHash := bh, publicKey := pk,
        hash := h, index_in_block := idx } =
    Transaction.calculateHash sha tx := rfl

theorem mineStep_frame (sha : String → String) (b : Block) :
    (Block.mineStep sha b).index = b.index ∧
    (Block.mineStep sha b).previousHash = b.previousHash ∧
    (Block.mineStep sha b).timestamp = b.timestamp ∧
    (Block.mineStep sha b).transactions = b.transactions ∧
    (Block.mineStep sha b).difficulty = b.difficulty ∧
    (Block.mineStep sha b).merkleRoot = b.merkleRoot ∧
    (Block.mineStep sha b).originTransactionHash = b.originTransactionHash := by
  refine ⟨rfl, rfl, rfl, rfl, rfl, rfl, rfl⟩

/-- Claim C7: mining with difficulty 0 terminates immediately — the
zero-leading-zeroes requirement is satisfied by every hash, so the loop
body never runs and the block (nonce included) is returned unchanged, for
every fuel bound. -/
theorem mineBlock_difficulty_zero_immediate (sha : String → String) (fuel : Nat)
    (b : Block) : Block.mineBlock sha fuel b 0 = b := by
  cases fuel with
  | zero => rfl
  | succ n =>
    simp [Block.mineBlock, meetsDifficulty]

/-- Claim C10: `mineBlock` mutates only `nonce` and `hash`; the index,
previous hash, timestamp, transactions, difficulty, Merkle root and origin
transaction hash are all preserved, for every difficulty and fuel bound. -/
theorem mineBlock_frame (sha : String → String) (fuel : Nat) (b : Block)
    (difficulty : Nat) :
    (Block.mineBlock sha fuel b difficulty).index = b.index ∧
    (Block.mineBlock sha fuel b difficulty).previousHash = b.previousHash ∧
    (Block.mineBlock sha fuel b difficulty).timestamp = b.timestamp ∧
    (Block.mineBlock sha fuel b difficulty).transactions = b.transactions ∧
    (Block.mineBlock sha fuel b difficulty).difficulty = b.difficulty ∧
    (Block.mineBlock sha fuel b difficulty).merkleRoot = b.merkleRoot ∧
    (Block.mineBlock sha fuel b difficulty).originTransactionHash =
      b.originTransactionHash := by
  induction fuel generalizing b with
  | zero => exact ⟨rfl, rfl, rfl, rfl, rfl, rfl, rfl⟩
  | succ n ih =>
    by_cases h : meetsDifficulty b.hash difficulty
    · simp [Block.mineBlock, h]
    · simpa [Block.mineBlock, h] using ih (Block.mineStep sha b)

/-- Claim C8: the hash the constructor stores is the canonical hash of the
transaction with the token fields absent (they are still `undefined` when
the constructor hashes, and `JSON.stringify` omits them), so it does not
depend on the token parameters; only `createToken`'s explicit recomputation,
performed after assigning the token fields, commits the hash to them. -/
theorem constructor_hash_ignores_token_fields (sha : String → String)
    (fa ta : JVal) (amount : String) (ts : Int)
    (sig bh oth pk idx tid tname tsym tsupply tid2 tname2 tsym2 tsupply2 : JVal)
    (name symbol : String) (tsAmount : String) (creator : String) :
    (Transaction.make sha fa ta amount ts sig bh oth pk idx
        tid tname tsym tsupply).hash =
      Transaction.calculateHash sha
        (Transaction.tokenFieldsAbsent
          (Transaction.make sha fa ta amount ts sig bh oth pk idx
            tid tname tsym tsupply)) ∧
    (Transaction.make sha fa ta amount ts sig bh oth pk idx
        tid tname tsym tsupply).hash =
      (Transaction.make sha fa ta amount ts sig bh oth pk idx
        tid2 tname2 tsym2 tsupply2).hash ∧
    (createTokenTx sha tid name symbol tsAmount tsupply creator ts).hash =
      Transaction.calculateHash sha
        (createTokenTx sha tid name symbol tsAmount tsupply creator ts) := by
  refine ⟨rfl, rfl, ?_⟩
  simp only [createTokenTx, Transaction.calculateHash]

theorem mem_of_getLast?_eq {α : Type} {l : List α} {a : α}
    (h : l.getLast? = some a) : a ∈ l := by
  rcases List.mem_getLast?_eq_getLast (l := l) (x := a) (by simp [h]) with ⟨hne, rfl⟩
  exact List.getLast_mem hne

/-- Claim C4: for a transaction whose stored hash equals its recomputed
canonical hash, signing (via `signWithAddress` or `signWithKeyPair`) leaves
the hash field unchanged, because the canonical hash is a function only of
`{fromAddress, toAddress, amount, tokenId, tokenName, tokenSymbol,
tokenTotalSupply, originTransactionHash, timestamp}` and setting the
signature and public key touches none of them. -/
theorem sign_preserves_hash (sha : String → String) (tx : Transaction)
    (sigDER pubKey sig2 pub2 : String)
    (h : tx.hash = tx.calculateHash sha) :
    (tx.signWithAddress sha sigDER pubKey).hash = tx.hash ∧
    (tx.signWithKeyPair sha sig2 pub2).hash = tx.hash ∧
    ∀ tx' : Transaction, tx.fromAddress = tx'.fromAddress →
      tx.toAddress = tx'.toAddress → tx.amount = tx'.amount →
      tx.tokenId = tx'.tokenId → tx.tokenName = tx'.tokenName →
      tx.tokenSymbol = tx'.tokenSymbol → tx.tokenTotalSupply = tx'.tokenTotalSupply →
      tx.originTransactionHash = tx'.originTransactionHash →
      tx.timestamp = tx'.timestamp →
      tx.calculateHash sha = tx'.calculateHash sha := by
  refine ⟨?_, ?_, ?_⟩
  · show Transaction.calculateHash sha _ = tx.hash
    rw [h]; rfl
  · show Transaction.calculateHash sha _ = tx.hash
    rw [h]; rfl
  · intro tx' h1 h2 h3 h4 h5 h6 h7 h8 h9
    simp only [Transaction.calculateHash, h1, h2, h3, h4, h5, h6, h7, h8, h9]

/-- A concrete transaction whose stored hash matches its canonical hash. -/
def sampleTxBase : Transaction :=
  Transaction.make idSha (JVal.str "aaaaaaaaaaaaaaaaaaaaaaaaaaaaaa")
    (JVal.str "bbbbbbbbbbbbbbbbbbbbbbbbbbbbbb") "10.00000000" 5
    JVal.null (JVal.str "") (JVal.str "oh") (JVal.str "")
    JVal.undef JVal.undef JVal.undef JVal.undef JVal.undef

theorem sign_preserves_hash_witness :
    sampleTxBase.hash = sampleTxBase.calculateHash idSha ∧
    (sampleTxBase.signWithAddress idSha "3044deadbeef" "04pubkey").hash = sampleTxBase.hash :=
  ⟨rfl, (sign_preserves_hash idSha sampleTxBase "3044deadbeef" "04pubkey" "s" "p" rfl).1⟩

/-- The origin pointer of a stored transaction is `null` or a nonempty hash
string; `undefined`, the empty string and numbers never occur in the data
model. -/
def wfOrigin : JVal → Bool
  | JVal.null => true
  | JVal.str s => s ≠ ""
  | _ => false

/-- The derived block origin pointer as the specification words it: the last
transaction's `origin_transaction_hash` when the last transaction has one,
otherwise the second-to-last transaction's, `null` when the list is empty or
no second-to-last transaction exists. -/
def specLastOriginTransactionHash (transactions : List Transaction) : JVal :=
  match transactions.getLast? with
  | none => JVal.null
  | some last =>
    if last.originTransactionHash ≠ JVal.null then last.originTransactionHash
    else
      match transactions.dropLast.getLast? with
      | some secondToLast => secondToLast.originTransactionHash
      | none => JVal.null

/-- Claim C6: on every block whose transactions carry well-formed origin
pointers, the derived `origin_transaction_hash` is exactly the
specification's case split: the last transaction's pointer if present, else
the second-to-last transaction's, and `null` for the empty list, a single
transaction without one, or neither of the last two having one. -/
theorem lastOriginTransactionHash_spec (transactions : List Transaction)
    (h : ∀ tx ∈ transactions, wfOrigin tx.originTransactionHash = true) :
    calculateLastOriginTransactionHash transactions =
      specLastOriginTransactionHash transactions := by
  unfold calculateLastOriginTransactionHash specLastOriginTransactionHash
  cases hl : transactions.getLast? with
  | none => rfl
  | some last =>
    have hmem : last ∈ transactions := mem_of_getLast?_eq hl
    have hwf := h last hmem
    cases hv : last.originTransactionHash with
    | null => simp [hv, JVal.jsTruthy]
    | str s =>
      have hs : s ≠ "" := by
        rw [hv] at hwf
        simpa [wfOrigin] using hwf
      simp [hv, JVal.jsTruthy, hs]
    | undef => rw [hv] at hwf; simp [wfOrigin] at hwf
    | num n => rw [hv] at hwf; simp [wfOrigin] at hwf

/-- Two concrete transactions for the C6 witness: the last one (a reward)
has no origin pointer, the second-to-last one has. -/
def txWithOrigin : Transaction :=
  Transaction.make idSha (JVal.str "cccccccccccccccccccccccccccccc")
    (JVal.str "dddddddddddddddddddddddddddddd") "1.00000000" 7
    JVal.null (JVal.str "") (JVal.str "originhash1") (JVal.str "")
    JVal.null JVal.null JVal.null JVal.null JVal.null

def txNoOrigin : Transaction :=
  Transaction.make idSha JVal.null (JVal.str "eeeeeeeeeeeeeeeeeeeeeeeeeeeeee")
    "100.00000000" 8 JVal.null (JVal.str "") JVal.null (JVal.str "")
    JVal.null JVal.null JVal.null JVal.null JVal.null

theorem lastOriginTransactionHash_spec_witness :
    calculateLastOriginTransactionHash [txWithOrigin, txNoOrigin] =
      specLastOriginTransactionHash [txWithOrigin, txNoOrigin] :=
  lastOriginTransactionHash_spec [txWithOrigin, txNoOrigin] (by decide)

/-- A non-reward transaction with a missing signature. -/
def txMissingSig : Transaction :=
  Transaction.make idSha (JVal.str "ffffffffffffffffffffffffffffff")
    (JVal.str "abababababababababababababab") "5.00000000" 9
    JVal.null (JVal.str "") JVal.null (JVal.str "")
    JVal.null JVal.null JVal.null JVal.null JVal.null

/-- A signed non-reward transaction whose `fromAddress` is not the address
derived from its public key. -/
def txWrongFrom : Transaction :=
  Transaction.make idSha (JVal.str "aaaaaaaaaaaaaaaaaaaaaaaaaaaaaa")
    (JVal.str "cdcdcdcdcdcdcdcdcdcdcdcdcdcd") "5.00000000" 9
    (JVal.str "3044022041sig") (JVal.str "") JVal.null (JVal.str "04deadbeefpub")
    JVal.null JVal.null JVal.null JVal.null JVal.null

/-- Claim C1 counterexample: (i) a missing signature makes `isValid` throw
an exception instead of returning `false`; (ii) with a parsable key and a
verifying signature, `isValid` returns `true` even though the address
derived from the public key differs from `fromAddress` — the derivation
check the claim requires does not exist in the code. -/
theorem isValid_claim_counterexample :
    Transaction.isValid idSha strictCrypto txMissingSig =
      Except.error "Transaction signature is missing or invalid!" ∧
    Transaction.isValid idSha permissiveCrypto txWrongFrom = Except.ok true ∧
    deriveAddress idSha txWrongFrom.publicKey.asString ≠
      txWrongFrom.fromAddress.asString := by
  refine ⟨rfl, rfl, by decide⟩

/-- Claim C1 amended: `isValid` returns `ok true` iff `fromAddress` is null
or (signature truthy, public key truthy and parsable, and the signature
verifies over the recomputed hash); it returns `ok false` iff the
transaction is non-reward with truthy signature and parsable truthy public
key but a failing verification; in every other case — missing signature,
missing or unparsable public key — it throws an exception rather than
returning `false`, and in no case does it compare the derived address with
`fromAddress`. -/
theorem isValid_amended (sha : String → String) (c : Crypto) (tx : Transaction) :
    (Transaction.isValid sha c tx = Except.ok true ↔
      tx.fromAddress = JVal.null ∨
        (tx.signature.jsTruthy ∧ tx.publicKey.jsTruthy ∧
         c.validKey tx.publicKey.asString ∧
         c.verify tx.publicKey.asString (tx.calculateHash sha) tx.signature.asString)) ∧
    (Transaction.isValid sha c tx = Except.ok false ↔
      tx.fromAddress ≠ JVal.null ∧ tx.signature.jsTruthy ∧ tx.publicKey.jsTruthy ∧
        c.validKey tx.publicKey.asString ∧
        ¬ c.verify tx.publicKey.asString (tx.calculateHash sha) tx.signature.asString) ∧
    ((∃ e, Transaction.isValid sha c tx = Except.error e) ↔
      tx.fromAddress ≠ JVal.null ∧
        (¬ tx.signature.jsTruthy ∨ ¬ tx.publicKey.jsTruthy ∨
         ¬ c.validKey tx.publicKey.asString)) := by
  by_cases h1 : tx.fromAddress = JVal.null
  · simp [Transaction.isValid, h1]
  · by_cases h2 : tx.signature.jsTruthy
    · by_cases h3 : tx.publicKey.jsTruthy
      · by_cases h4 : c.validKey tx.publicKey.asString
        · by_cases h5 : c.verify tx.publicKey.asString (tx.calculateHash sha)
              tx.signature.asString
          · simp [Transaction.isValid, h1, h2, h3, h4, h5]
          · simp [Transaction.isValid, h1, h2, h3, h4, h5]
        · simp [Transaction.isValid, h1, h2, h3, h4]
      · simp [Transaction.isValid, h1, h2, h3]
    · simp [Transaction.isValid, h1, h2]

/-- A concrete genesis block (empty transaction list, difficulty 0). -/
def genesisBlockW : Block := Block.make idSha 0 JVal.null 0 [] 0

/-- A concrete node state holding only the genesis block, with difficulty 0
so that proof-of-work is trivially met. -/
def baseState : ChainState :=
  { chain := [genesisBlockW], pendingTransactions := [], transactionPool := [],
    dbPending := [], broadcasts := [], difficulty := 0,
    miningReward := "100.00000000" }

/-- A concrete successor block that passes all four `addBlock` validations
against `baseState`. -/
def nextBlockW : Block := Block.make idSha 1 (JVal.str genesisBlockW.hash) 0 [] 0

/-- The state with one block pushed onto the in-memory chain, as left behind
when the save step fails after validation. -/
def pushedState (st : ChainState) (b : Block) : ChainState :=
  { st with chain := st.chain ++ [b] }

/-- Claim C2 counterexample: a fully valid incoming block whose save fails
makes `addBlock` return `false` with the block nevertheless appended to the
in-memory chain — the chain after the failed append differs from the chain
before. -/
theorem addBlock_failed_save_keeps_block :
    addBlock idSha strictCrypto false baseState nextBlockW =
      Except.ok (false, pushedState baseState nextBlockW) ∧
    pushedState baseState nextBlockW ≠ baseState := by
  refine ⟨rfl, by decide⟩

/-- Claim C2 amended: a rejection by one of the four validation checks
leaves the chain state unchanged, but a store failure is different — when
`save` fails, `addBlock` returns `false` with the validated block already
pushed, and `minePendingTransactions` swallows the error with the mined
block already pushed; in both cases the in-memory chain has grown despite
the failure. -/
theorem addBlock_failure_modes :
    (∀ (sha : String → String) (c : Crypto) (st : ChainState) (b : Block)
        (res : ChainState),
      addBlock sha c true st b = Except.ok (false, res) → res = st) ∧
    (∀ (sha : String → String) (c : Crypto) (st : ChainState) (b : Block)
        (res : ChainState),
      addBlock sha c false st b = Except.ok (false, res) →
        res = st ∨ res = pushedState st b) ∧
    (∀ (sha : String → String) (st : ChainState) (p : MineParams) (prev : Block),
      p.lockOk = true → p.saveOk = false →
      st.pendingTransactions ≠ [] → mineFiltered st ≠ [] →
      dedupeByHash [] (mineFiltered st) ≠ [] →
      st.chain.getLast? = some prev →
      prev.originTransactionHash =
        calculateLastOriginTransactionHash prev.transactions →
      minePendingTransactions sha st p =
        pushedState st (mineNewBlock sha st p prev)) := by
  refine ⟨?_, ?_, ?_⟩
  · intro sha c st b res h
    unfold addBlock at h
    cases hl : st.chain.getLast? <;> rw [hl] at h
    · simp at h
    · repeat' split at h
      all_goals simp_all
  · intro sha c st b res h
    unfold addBlock at h
    cases hl : st.chain.getLast? <;> rw [hl] at h
    · simp at h
    · repeat' split at h
      all_goals simp_all [pushedState]
  · intro sha st p prev hlock hsave hne hfil hded hl horig
    unfold minePendingTransactions
    rw [hl]
    simp [hlock, hsave, List.isEmpty_iff, hne, hfil, hded, horig, pushedState]

/-- A block whose `previousHash` does not match the latest block of
`baseState`. -/
def mismatchBlock : Block := Block.make idSha 1 (JVal.str "doesnotmatch") 0 [] 0

theorem addBlock_failure_modes_witness :
    addBlock idSha strictCrypto true baseState mismatchBlock =
      Except.ok (false, baseState) ∧ baseState = baseState :=
  ⟨rfl, addBlock_failure_modes.1 idSha strictCrypto baseState mismatchBlock
    baseState rfl⟩

/-- Claim C3: `replaceChain` leaves the local state untouched whenever the
candidate is not strictly longer or its cumulative difficulty is not
strictly greater; conversely, any change of state implies the candidate was
strictly longer, validated as a chain, and of strictly greater cumulative
difficulty. -/
theorem replaceChain_spec :
    (∀ (sha : String → String) (c : Crypto) (rp : ReplaceParams) (st : ChainState)
        (g : Bool) (newChainData : List Block),
      newChainData.length ≤ st.chain.length ∨
        cumulativeDifficulty newChainData ≤ cumulativeDifficulty st.chain →
      (replaceChain sha c rp st g newChainData).1 = st) ∧
    (∀ (sha : String → String) (c : Crypto) (rp : ReplaceParams) (st : ChainState)
        (g : Bool) (newChainData : List Block),
      (replaceChain sha c rp st g newChainData).1 ≠ st →
      st.chain.length < newChainData.length ∧
        isValidChain sha c newChainData = Except.ok true ∧
        cumulativeDifficulty st.chain < cumulativeDifficulty newChainData) := by
  constructor
  · intro sha c rp st g newChainData hcond
    unfold replaceChain
    by_cases hg : g
    · simp [hg]
    · simp only [hg, if_false, Bool.false_eq_true]
      by_cases hlen : newChainData.length ≤ st.chain.length
      · simp [hlen]
      · cases hval : isValidChain sha c newChainData with
        | error e => simp [hlen, hval]
        | ok valid =>
          cases valid with
          | false => simp [hlen, hval]
          | true =>
            have hcum : ¬ cumulativeDifficulty newChainData >
                cumulativeDifficulty st.chain := by
              rcases hcond with h | h
              · exact absurd h hlen
              · omega
            simp [hlen, hval, hcum]
  · intro sha c rp st g newChainData hne
    unfold replaceChain at hne
    by_cases hg : g
    · simp [hg] at hne
    · simp only [hg, if_false, Bool.false_eq_true] at hne
      by_cases hlen : newChainData.length ≤ st.chain.length
      · simp [hlen] at hne
      · rw [if_neg hlen] at hne
        cases hval : isValidChain sha c newChainData with
        | error e => rw [hval] at hne; simp at hne
        | ok valid =>
          rw [hval] at hne
          cases valid with
          | false => simp at hne
          | true =>
            by_cases hcum : cumulativeDifficulty newChainData >
                cumulativeDifficulty st.chain
            · exact ⟨by omega, rfl, hcum⟩
            · simp [hcum] at hne

def rpW : ReplaceParams := { clearOk := true, saveOkUpTo := 0 }

theorem replaceChain_spec_witness :
    (replaceChain idSha strictCrypto rpW baseState false []).1 = baseState :=
  replaceChain_spec.1 idSha strictCrypto rpW baseState false []
    (Or.inl (by decide))

/-- A reward transaction (null sender, hence accepted by `isValid`) whose
amount is zero. -/
def zeroAmountTx : Transaction :=
  Transaction.make idSha JVal.null (JVal.str "abcdefabcdefabcdefabcdefabcdef")
    "0.00000000" 3 JVal.null (JVal.str "") JVal.null (JVal.str "")
    JVal.null JVal.null JVal.null JVal.null JVal.null

/-- A concrete node state with an empty mempool and pool. -/
def emptyState : ChainState :=
  { chain := [], pendingTransactions := [], transactionPool := [],
    dbPending := [], broadcasts := [], difficulty := 2,
    miningReward := "100.00000000" }

/-- Claim C5 counterexample: a zero-amount transaction is admitted —
`addPendingTransaction` appends it to the mempool, persists it to
`pending_transactions`, and broadcasts it, because no amount check exists at
admission (the only NaN/zero/negative guard lives in the CLI before
admission is called). -/
theorem addPendingTransaction_admits_zero_amount :
    zeroAmountTx.amount = "0.00000000" ∧
    addPendingTransaction idSha strictCrypto emptyState zeroAmountTx =
      Except.ok { emptyState with
        pendingTransactions := [zeroAmountTx],
        transactionPool := [zeroAmountTx.hash],
        dbPending := [{ zeroAmountTx with
          hash := zeroAmountTx.calculateHash idSha }],
        broadcasts := [zeroAmountTx.hash] } := by
  exact ⟨rfl, rfl⟩

/-- Claim C5 amended: `addPendingTransaction` performs no amount validation
at all — any transaction accepted by `isValid()` (for instance every reward
transaction, whose `fromAddress` is null) is appended to the mempool,
persisted to `pending_transactions`, and broadcast, whatever its amount;
the NaN/zero/negative rejection exists only in the CLI layer before
admission is invoked. -/
theorem addPendingTransaction_no_amount_check (sha : String → String)
    (c : Crypto) (st : ChainState) (tx : Transaction)
    (hfrom : tx.fromAddress = JVal.null)
    (hpool : tx.hash ∉ st.transactionPool) :
    addPendingTransaction sha c st tx = Except.ok { st with
      pendingTransactions := st.pendingTransactions ++ [tx],
      transactionPool := st.transactionPool ++ [tx.hash],
      dbPending := savePendingUpsert sha st.dbPending tx,
      broadcasts := st.broadcasts ++ [tx.hash] } := by
  unfold addPendingTransaction
  rw [show tx.isValid sha c = Except.ok true by
    unfold Transaction.isValid; rw [if_pos hfrom]]
  simp [hpool]

theorem addPendingTransaction_no_amount_check_witness :
    addPendingTransaction idSha strictCrypto emptyState zeroAmountTx =
      Except.ok { emptyState with
        pendingTransactions := emptyState.pendingTransactions ++ [zeroAmountTx],
        transactionPool := emptyState.transactionPool ++ [zeroAmountTx.hash],
        dbPending := savePendingUpsert idSha emptyState.dbPending zeroAmountTx,
        broadcasts := emptyState.broadcasts ++ [zeroAmountTx.hash] } :=
  addPendingTransaction_no_amount_check idSha strictCrypto emptyState
    zeroAmountTx rfl (by decide)

/-- Claim C9: when the lock is acquired, the mempool is non-empty, and every
pending transaction's hash already appears in some block of the chain, the
miner produces no block: it empties the in-memory mempool and deletes every
row of `pending_transactions` (whatever rows that table holds, including
ones this node never saw), leaving everything else unchanged. -/
theorem mine_allMined_clears_everything (sha : String → String)
    (st : ChainState) (p : MineParams)
    (hlock : p.lockOk = true)
    (hne : st.pendingTransactions ≠ [])
    (hall : ∀ tx ∈ st.pendingTransactions, ∃ b ∈ st.chain,
      ∃ e ∈ b.transactions, e.hash = tx.hash) :
    minePendingTransactions sha st p =
      { st with pendingTransactions := [], dbPending := [] } := by
  have hfil : mineFiltered st = [] := by
    unfold mineFiltered
    rw [List.filter_eq_nil_iff]
    intro tx htx
    rcases hall tx htx with ⟨b, hb, e, he, hhash⟩
    have hany : (st.chain.any fun b =>
        b.transactions.any fun e => decide (e.hash = tx.hash)) = true := by
      rw [List.any_eq_true]
      exact ⟨b, hb, List.any_eq_true.mpr ⟨e, he, by simp [hhash]⟩⟩
    simp [hany]
  unfold minePendingTransactions
  simp [hlock, List.isEmpty_iff, hne, hfil]

/-- A one-transaction block and a state whose only pending transaction is
that same already-mined transaction. -/
def minedBlockW : Block := Block.make idSha 0 JVal.null 0 [txNoOrigin] 0

def allMinedState : ChainState :=
  { chain := [minedBlockW], pendingTransactions := [txNoOrigin],
    transactionPool := [txNoOrigin.hash],
    dbPending := [txNoOrigin, txWithOrigin], broadcasts := [], difficulty := 0,
    miningReward := "100.00000000" }

def mineParamsW : MineParams :=
  { lockOk := true, saveOk := true, now := 0, fuel := 0, rewardAddr := JVal.null }

theorem mine_allMined_clears_everything_witness :
    minePendingTransactions idSha allMinedState mineParamsW =
      { allMinedState with pendingTransactions := [], dbPending := [] } :=
  mine_allMined_clears_everything idSha allMinedState mineParamsW rfl
    (by decide)
    (by
      intro tx htx
      have h1 : tx = txNoOrigin := by
        simpa [allMinedState] using htx
      subst h1
      refine ⟨minedBlockW, by simp [allMinedState], txNoOrigin, ?_, rfl⟩
      show txNoOrigin ∈ minedBlockW.transactions
      simp [minedBlockW, Block.make])
